import Mathlib

/-!
Verification of `archinstall/lib/translationhandler.py`.

The module discovers gettext translation catalogs, computes a completeness
percentage for each language relative to the reference `base.pot` file,
offers lookup of languages by name and abbreviation, and installs a
process-wide active translation that deferred markers consult on resolution.

The embedding below models the filesystem inputs (`base.pot` lines, the
`languages.json` mapping list, the directory listing of the locales folder,
and the available compiled catalogs) explicitly as a `LocalesDir` value, and
models each Python function as a Lean function over it.  Fallible loading is
an `Except LoadError` computation.  Python's float expression
`int((num / total) * 100)` is evaluated in IEEE binary64 arithmetic: the
quotient `num / total` is rounded to the nearest double (ties to even), the
product with 100 is rounded again, and `int` truncates towards zero.  This
is modelled bit-exactly below (`roundQ53`, `int_float_percent`) over integer
arithmetic, with an unbounded exponent range: overflow and subnormal inputs
cannot arise from catalog counts, whose quotients stay far inside the normal
double range.  The double rounding makes the stored percentage differ from
`floor(100 * num / total)` on some inputs (for example `num = 29`,
`total = 50` stores 57, not 58).
-/

namespace Archinstall

/-- A gettext catalog: a finite association of message ids to translations.
Python stores this as the dict `translation._catalog`, so keys are unique. -/
abbrev Catalog := List (String × String)

/-- One record of `languages.json`: `{abbr, lang, translated_lang?}`. -/
structure MappingEntry where
  abbr : String
  lang : String
  translated_lang : Option String
deriving Repr, DecidableEq

/-- The `Language` dataclass of the source. -/
structure Language where
  abbr : String
  name_en : String
  translation : Catalog
  translation_percent : Int
  translated_lang : Option String
deriving Repr, DecidableEq

/-- The `display_name` property: `f'{name} ({self.translation_percent}%)'`. -/
def Language.display_name (self : Language) : String :=
  self.name_en ++ " (" ++ toString self.translation_percent ++ "%)"

/-- The `is_match` method of `Language`. -/
def Language.is_match (self : Language) (lang_or_translated_lang : String) : Bool :=
  if self.name_en = lang_or_translated_lang then true
  else if self.translated_lang = some lang_or_translated_lang then true
  else false

/-- The filesystem inputs consumed by `TranslationHandler`:
`base_pot` is the line list of `base.pot`, `languages_json` the parsed
mapping file, `listdir` the entries of `os.listdir(locales_dir)` in
enumeration order, and `mo_catalog` maps a locale code to the catalog of its
compiled `base.mo` file when one exists. -/
structure LocalesDir where
  base_pot : List String
  languages_json : List MappingEntry
  listdir : List String
  mo_catalog : String → Option Catalog

/-- The exceptions that can escape `TranslationHandler.__init__`:
`next` on an empty filter raises `StopIteration`, a missing catalog file is
re-raised as `FileNotFoundError`, and `num / total` with `total == 0` raises
`ZeroDivisionError`. -/
inductive LoadError where
  | stopIteration : LoadError
  | fileNotFoundError : String → LoadError
  | zeroDivisionError : LoadError
deriving Repr, DecidableEq

/-- Boolean substring test, modelling Python's `'msgid' in line`. -/
def containsSub (needle : List Char) : List Char → Bool
  | [] => needle.isPrefixOf []
  | c :: rest => needle.isPrefixOf (c :: rest) || containsSub needle rest

/-- `TranslationHandler._get_total_active_messages`: count the lines of
`base.pot` containing `msgid` and subtract one for the metadata header. -/
def get_total_active_messages (fs : LocalesDir) : Int :=
  ((fs.base_pot.filter (fun line => containsSub "msgid".toList line.toList)).length : Int) - 1

/-- `TranslationHandler._provided_translations`: keep the directory entries
whose name has exactly two characters or is one of the fixed longer codes. -/
def provided_translations (fs : LocalesDir) : List String :=
  fs.listdir.filter (fun filename =>
    filename.length == 2 || ["pt_BR", "zh-CN", "zh-TW"].contains filename)

/-- Modelled from the spec: the external call
`gettext.translation('base', localedir, languages=(abbr, lang))` loads the
catalog of the first of the two locale codes that has one, and raises
`FileNotFoundError` (here `none`) when neither has one.  The gettext library
itself is not part of this repository. -/
def gettext_translation (fs : LocalesDir) (abbr lang : String) : Option Catalog :=
  match fs.mo_catalog abbr with
  | some catalog => some catalog
  | none => fs.mo_catalog lang

/-- `TranslationHandler._get_catalog_size`: the number of catalog entries
whose key and value are both non-empty (`{k: v for k, v in catalog.items()
if k and v}`). -/
def get_catalog_size (catalog : Catalog) : Nat :=
  (catalog.filter (fun kv => kv.1 != "" && kv.2 != "")).length

/-- Floor of the base-2 logarithm of `n` (for `n ≥ 1`), by structural
recursion on a fuel argument so that the kernel can evaluate it. -/
def log2fuel : ℕ → ℕ → ℕ
  | 0, _ => 0
  | fuel + 1, n => if n ≤ 1 then 0 else log2fuel fuel (n / 2) + 1

/-- For `1 ≤ p < q`, the smallest `k ≥ 1` with `q ≤ 2 ^ k * p`, i.e. the
`k` with `p / q ∈ [2 ^ (-k), 2 ^ (-k + 1))`; fuel-driven structural
recursion. -/
def negexpFuel : ℕ → ℕ → ℕ → ℕ
  | 0, _, _ => 1
  | fuel + 1, p, q => if q ≤ 2 * p then 1 else negexpFuel fuel (2 * p) q + 1

/-- Floor of the base-2 logarithm of the positive rational `p / q`.  For
`p / q ≥ 1` this is the floor logarithm of the integer quotient `p / q`
(the dyadic interval of a rational `≥ 1` is determined by its integer
part, since the interval bounds are integers). -/
def ratLog2floor (p q : ℕ) : ℤ :=
  if q ≤ p then (log2fuel p (p / q) : ℤ) else -(negexpFuel q p q : ℤ)

/-- IEEE binary64 rounding (round to nearest, ties to even, unbounded
exponent range) of the positive rational `p / q`: the result is the pair
`(m, E)` representing `m * 2 ^ E`, where `m` is the 53-bit significand
obtained by scaling `p / q` into `[2 ^ 52, 2 ^ 53)` and rounding. -/
def roundQ53 (p q : ℕ) : ℕ × ℤ :=
  let e := ratLog2floor p q
  let a := if e ≤ 52 then p * 2 ^ (52 - e).toNat else p
  let b := if e ≤ 52 then q else q * 2 ^ (e - 52).toNat
  let m0 := a / b
  let r := a % b
  let m := if 2 * r < b then m0
           else if b < 2 * r then m0 + 1
           else if m0 % 2 = 0 then m0 else m0 + 1
  (m, e - 52)

/-- Magnitude of `int(float(p) / float(q) * 100)` for `p ≥ 1`: binary64
round the quotient `p / q`, multiply the resulting dyadic
`m1 * 2 ^ e1` exactly by 100, binary64 round the product, and truncate. -/
def float_mag (p q : ℕ) : ℕ :=
  let m1e1 := roundQ53 p q
  let m2e2 := if 0 ≤ m1e1.2 then roundQ53 (100 * m1e1.1 * 2 ^ m1e1.2.toNat) 1
              else roundQ53 (100 * m1e1.1) (2 ^ (-m1e1.2).toNat)
  if 0 ≤ m2e2.2 then m2e2.1 * 2 ^ m2e2.2.toNat else m2e2.1 / 2 ^ (-m2e2.2).toNat

/-- The Python expression `int((num / total) * 100)` for `total ≠ 0`,
evaluated in binary64 arithmetic: `num / total` is true float division
(correctly rounded, sign handled symmetrically), the product with 100 is
rounded again, and `int` truncates towards zero.  `num = 0` yields `0.0`
(or `-0.0`), hence 0. -/
def int_float_percent (num : ℕ) (total : ℤ) : ℤ :=
  if num = 0 then 0
  else (if total < 0 then -1 else 1) * (float_mag num total.natAbs : ℤ)

/-- One iteration of the loop body of `TranslationHandler._get_translations`
for a single qualifying directory name `short_form`. -/
def process_language (fs : LocalesDir) (total_messages : Int) (short_form : String) :
    Except LoadError Language :=
  match fs.languages_json.find? (fun x => x.abbr == short_form) with
  | none => .error .stopIteration
  | some mapping_entry =>
    match gettext_translation fs mapping_entry.abbr mapping_entry.lang with
    | none => .error (.fileNotFoundError mapping_entry.lang)
    | some translation =>
      if mapping_entry.abbr == "en" then
        .ok ⟨mapping_entry.abbr, mapping_entry.lang, translation, 100,
             mapping_entry.translated_lang⟩
      else if total_messages == 0 then
        .error .zeroDivisionError
      else
        let num_translations := get_catalog_size translation
        let percent := int_float_percent num_translations total_messages
        .ok ⟨mapping_entry.abbr, mapping_entry.lang, translation, min 100 percent,
             mapping_entry.translated_lang⟩

/-- `TranslationHandler._get_translations`: process the qualifying directory
names in order, stopping at the first raised error. -/
def get_translations (fs : LocalesDir) (total_messages : Int) :
    List String → Except LoadError (List Language)
  | [] => .ok []
  | short_form :: rest =>
    match process_language fs total_messages short_form with
    | .error e => .error e
    | .ok language =>
      match get_translations fs total_messages rest with
      | .error e => .error e
      | .ok languages => .ok (language :: languages)

/-- `TranslationHandler.__init__`: compute the reference message count, then
load every provided translation. -/
def translationHandler (fs : LocalesDir) : Except LoadError (List Language) :=
  get_translations fs (get_total_active_messages fs) (provided_translations fs)

/-- `TranslationHandler.get_language_by_name`: first registry record whose
`name_en` equals `name` exactly, else the `ValueError` message. -/
def get_language_by_name (languages : List Language) (name : String) :
    Except String Language :=
  match languages.find? (fun x => x.name_en == name) with
  | some language => .ok language
  | none => .error ("No language with name found: " ++ name)

/-- `TranslationHandler.get_language_by_abbr`: first registry record whose
`abbr` equals `abbr` exactly, else the `ValueError` message. -/
def get_language_by_abbr (languages : List Language) (abbr : String) :
    Except String Language :=
  match languages.find? (fun x => x.abbr == abbr) with
  | some language => .ok language
  | none => .error ("No language with abbreviation \"" ++ abbr ++ "\" found")

/-- The process-wide slot `builtins._`: it holds either the
`_DeferredTranslation` class installed at module load (passthrough mode) or
`GNUTranslations.gettext` bound to an installed catalog. -/
inductive ActiveState where
  | passthrough : ActiveState
  | active : Catalog → ActiveState
deriving Repr, DecidableEq

/-- The module-load assignment `builtins._ = _DeferredTranslation`. -/
def initial_state : ActiveState := .passthrough

/-- `TranslationHandler.activate`: `language.translation.install()` replaces
`builtins._` with the gettext lookup of the language's catalog. -/
def activate (language : Language) : ActiveState → ActiveState :=
  fun _ => .active language.translation

/-- Modelled from the spec: the external `GNUTranslations.gettext` method
that `install()` places in `builtins._`; it is not part of this repository.
Per the spec, a non-empty translation for the key is returned, and a missing
key or an empty translation falls back to the literal message. -/
def gettext_gettext (catalog : Catalog) (message : String) : String :=
  match catalog.lookup message with
  | some translated => if translated == "" then message else translated
  | none => message

/-- The `_DeferredTranslation` marker class: it stores the literal message. -/
structure DeferredTranslation where
  message : String
deriving Repr, DecidableEq

/-- `_DeferredTranslation.__str__`: return the literal message while
`builtins._` still holds the marker class, otherwise call the installed
`builtins._` on the message. -/
def DeferredTranslation.str (self : DeferredTranslation) (state : ActiveState) : String :=
  match state with
  | .passthrough => self.message
  | .active catalog => gettext_gettext catalog self.message

/-- The module-level `tr`: `str(_DeferredTranslation(message))`. -/
def tr (state : ActiveState) (message : String) : String :=
  (DeferredTranslation.mk message).str state

/-- The whole mutable module state visible to `tr`: the `builtins._` slot
and the module-level `translation_handler` registry.  `tr` reads only the
slot. -/
structure ProcessState where
  builtins_underscore : ActiveState
  translation_handler : Except LoadError (List Language)

/-- `tr` as run inside a full process state. -/
def tr_inProcess (g : ProcessState) (message : String) : String :=
  tr g.builtins_underscore message

/-! ## Concrete sample inputs -/

/-- Sample catalog with five non-empty translated entries. -/
def cat5 : Catalog :=
  [("k1", "v1"), ("k2", "v2"), ("k3", "v3"), ("k4", "v4"), ("k5", "v5")]

/-- Sample catalog with eleven non-empty translated entries. -/
def cat11 : Catalog :=
  [("k1", "v1"), ("k2", "v2"), ("k3", "v3"), ("k4", "v4"), ("k5", "v5"),
   ("k6", "v6"), ("k7", "v7"), ("k8", "v8"), ("k9", "v9"), ("k10", "v10"),
   ("k11", "v11")]

/-- A sample locales directory: a reference file with eleven `msgid` lines
(one metadata header plus ten real messages), three mapped languages, and
catalogs for all three. -/
def sampleFs : LocalesDir where
  base_pot :=
    ["msgid 0", "msgid 1", "msgid 2", "msgid 3", "msgid 4", "msgid 5",
     "msgid 6", "msgid 7", "msgid 8", "msgid 9", "msgid 10"]
  languages_json :=
    [⟨"en", "English", none⟩, ⟨"fr", "French", some "Francais"⟩,
     ⟨"de", "German", none⟩]
  listdir := ["en", "fr", "de", "base.pot", "languages.json"]
  mo_catalog := fun code =>
    if code == "en" then some []
    else if code == "fr" then some cat5
    else if code == "de" then some cat11
    else none

/-- The registry that loading `sampleFs` produces. -/
def sampleLangs : List Language :=
  [⟨"en", "English", [], 100, none⟩,
   ⟨"fr", "French", cat5, 50, some "Francais"⟩,
   ⟨"de", "German", cat11, 100, none⟩]

/-- A locales directory whose reference file contains no `msgid` line at
all, so `get_total_active_messages` evaluates to `0 - 1 = -1`, and which
still loads without error. -/
def emptyPotFs : LocalesDir where
  base_pot := ["# reference catalog with no entries"]
  languages_json := [⟨"fr", "French", none⟩]
  listdir := ["fr", "base.pot", "languages.json"]
  mo_catalog := fun code =>
    if code == "fr" then some [("Hello", "Bonjour")] else none

/-- A locales directory with a qualifying language directory `xx` that has
no entry in the mapping file. -/
def unmappedDirFs : LocalesDir where
  base_pot := ["msgid 0", "msgid 1"]
  languages_json := [⟨"en", "English", none⟩]
  listdir := ["xx"]
  mo_catalog := fun _ => none

/-- Sample catalog with 29 non-empty translated entries. -/
def cat29 : Catalog :=
  (List.range 29).map (fun i => ("key" ++ toString i, "value"))

/-- A locales directory whose reference file has 51 `msgid` lines (so the
reference count is 50) and one language with 29 translated entries: the
binary64 evaluation of `int((29 / 50) * 100)` yields 57, one below the
floored exact ratio 58. -/
def floatRoundFs : LocalesDir where
  base_pot := List.replicate 51 "msgid entry"
  languages_json := [⟨"fr", "French", none⟩]
  listdir := ["fr", "base.pot", "languages.json"]
  mo_catalog := fun code => if code == "fr" then some cat29 else none

/-! ## Helper lemmas about the loader -/

/-- A successful `get_translations` run processed every qualifying directory
name successfully. -/
theorem get_translations_ok_each (fs : LocalesDir) (N : Int) (shorts : List String)
    (langs : List Language) (h : get_translations fs N shorts = Except.ok langs) :
    ∀ s ∈ shorts, ∃ L, process_language fs N s = Except.ok L := by
  induction shorts generalizing langs with
  | nil => intro s hs; simp at hs
  | cons a rest ih =>
    intro s hs
    simp only [get_translations] at h
    cases hp : process_language fs N a with
    | error e => rw [hp] at h; cases h
    | ok language =>
      rw [hp] at h
      cases hr : get_translations fs N rest with
      | error e => rw [hr] at h; cases h
      | ok languages =>
        rw [hr] at h
        rcases List.mem_cons.mp hs with rfl | hs'
        · exact ⟨language, hp⟩
        · exact ih languages hr s hs'

/-- Every record of a successfully loaded registry was produced by
`process_language` on one of the qualifying directory names. -/
theorem get_translations_mem (fs : LocalesDir) (N : Int) (shorts : List String)
    (langs : List Language) (L : Language)
    (h : get_translations fs N shorts = Except.ok langs) (hmem : L ∈ langs) :
    ∃ s ∈ shorts, process_language fs N s = Except.ok L := by
  induction shorts generalizing langs with
  | nil =>
    simp only [get_translations, Except.ok.injEq] at h
    subst h; simp at hmem
  | cons a rest ih =>
    simp only [get_translations] at h
    cases hp : process_language fs N a with
    | error e => rw [hp] at h; cases h
    | ok language =>
      rw [hp] at h
      cases hr : get_translations fs N rest with
      | error e => rw [hr] at h; cases h
      | ok languages =>
        rw [hr] at h
        cases h
        rcases List.mem_cons.mp hmem with rfl | hmem'
        · exact ⟨a, List.mem_cons_self a rest, hp⟩
        · obtain ⟨s, hs, hps⟩ := ih languages hr hmem'
          exact ⟨s, List.mem_cons_of_mem a hs, hps⟩

/-- Characterisation of the percentage stored by `process_language`: the
base language gets a literal 100, every other language gets the clamped
binary64 evaluation of the ratio; in the latter case the denominator was
non-zero. -/
theorem process_language_percent (fs : LocalesDir) (N : Int) (s : String) (L : Language)
    (h : process_language fs N s = Except.ok L) :
    (L.abbr = "en" ∧ L.translation_percent = 100)
    ∨ (L.abbr ≠ "en" ∧ N ≠ 0
        ∧ L.translation_percent
            = min 100 (int_float_percent (get_catalog_size L.translation) N)) := by
  unfold process_language at h
  split at h
  · cases h
  next mapping_entry hf =>
    split at h
    · cases h
    next translation hg =>
      split at h
      next hen' =>
        cases h
        exact Or.inl ⟨by simpa using hen', rfl⟩
      next hen' =>
        split at h
        · cases h
        next hz' =>
          cases h
          exact Or.inr ⟨by simpa using hen', by simpa using hz', rfl⟩

/-- Truncating a non-negative binary64 value gives a non-negative integer:
for a non-negative denominator the sign factor of `int_float_percent` is 1
and the magnitude is a natural number. -/
theorem int_float_percent_nonneg (num : ℕ) (total : ℤ) (h : 0 ≤ total) :
    0 ≤ int_float_percent num total := by
  unfold int_float_percent
  split
  · exact le_refl 0
  · rw [if_neg (not_lt.mpr h), one_mul]
    exact Int.natCast_nonneg _

/-- Loading the sample directory succeeds with the expected registry. -/
theorem sampleFs_loads : translationHandler sampleFs = Except.ok sampleLangs := rfl

/-! ## Resolution of deferred markers -/

/-- C2: before any call to `activate` the slot `builtins._` still holds the
`_DeferredTranslation` class installed at module load, and `tr` returns every
message unchanged. -/
theorem tr_passthrough (message : String) : tr initial_state message = message := rfl

/-- C1: after `activate L` (from any prior state), resolving a deferred
marker for `m` returns the catalog translation of `m` when the catalog has a
non-empty translation for the key `m`, and returns the literal `m` itself
when the key is absent or maps to the empty string. -/
theorem tr_after_activate (L : Language) (s : ActiveState) (m : String) :
    (∀ t, L.translation.lookup m = some t → t ≠ "" → tr (activate L s) m = t)
    ∧ (L.translation.lookup m = none → tr (activate L s) m = m)
    ∧ (L.translation.lookup m = some "" → tr (activate L s) m = m) := by
  refine ⟨fun t hl ht => ?_, fun hl => ?_, fun hl => ?_⟩ <;>
    simp [tr, activate, DeferredTranslation.str, gettext_gettext, hl]
  intro h
  exact absurd h ht

/-- Witness for C1: with a catalog mapping `Hello` to `Bonjour`, the marker
for `Hello` resolves to `Bonjour` and the absent key `Goodbye` falls back to
itself. -/
theorem tr_after_activate_witness :
    tr (activate ⟨"fr", "French", [("Hello", "Bonjour")], 50, none⟩ initial_state)
        "Hello" = "Bonjour"
    ∧ tr (activate ⟨"fr", "French", [("Hello", "Bonjour")], 50, none⟩ initial_state)
        "Goodbye" = "Goodbye" :=
  ⟨(tr_after_activate ⟨"fr", "French", [("Hello", "Bonjour")], 50, none⟩
      initial_state "Hello").1 "Bonjour" (by decide) (by decide),
   (tr_after_activate ⟨"fr", "French", [("Hello", "Bonjour")], 50, none⟩
      initial_state "Goodbye").2.1 (by decide)⟩

/-- C9: resolution is total and never fails: in every active-translation
state, `tr` returns either the literal message itself (the passthrough,
missing-key and empty-translation cases) or a non-empty translation found in
the active catalog. -/
theorem tr_never_fails (s : ActiveState) (m : String) :
    tr s m = m
    ∨ ∃ catalog t, s = ActiveState.active catalog
        ∧ catalog.lookup m = some t ∧ t ≠ "" ∧ tr s m = t := by
  cases s with
  | passthrough => exact Or.inl rfl
  | active catalog =>
    cases hl : catalog.lookup m with
    | none => exact Or.inl (by simp [tr, DeferredTranslation.str, gettext_gettext, hl])
    | some t =>
      by_cases ht : t = ""
      · subst ht
        exact Or.inl (by simp [tr, DeferredTranslation.str, gettext_gettext, hl])
      · refine Or.inr ⟨catalog, t, rfl, hl, ht, ?_⟩
        simp [tr, DeferredTranslation.str, gettext_gettext, hl]
        intro h
        exact absurd h ht

/-- C10: resolution is deterministic in the message and the `builtins._`
slot: two process states that agree on the slot (whatever their registries
hold) resolve every message to the same string. -/
theorem tr_deterministic (g₁ g₂ : ProcessState) (m : String)
    (h : g₁.builtins_underscore = g₂.builtins_underscore) :
    tr_inProcess g₁ m = tr_inProcess g₂ m := by
  simp [tr_inProcess, h]

/-- Witness for C10: two process states with different registries but the
same passthrough slot resolve `Hello` identically. -/
theorem tr_deterministic_witness :
    tr_inProcess ⟨ActiveState.passthrough, Except.error LoadError.stopIteration⟩ "Hello"
      = tr_inProcess ⟨ActiveState.passthrough, Except.ok []⟩ "Hello" :=
  tr_deterministic ⟨ActiveState.passthrough, Except.error LoadError.stopIteration⟩
    ⟨ActiveState.passthrough, Except.ok []⟩ "Hello" rfl

/-! ## Completeness percentages -/

/-- C3 (counterexample): with reference count 50 and 29 translated entries,
loading succeeds, the claim's hypotheses hold, but the stored percentage is
the binary64 result 57, not the floored exact ratio
`min(100, floor(100 * 29 / 50)) = 58`: `(29 / 50) * 100` evaluates to the
double `57.99999999999999...` and `int` truncates it to 57. -/
theorem completeness_percent_counterexample :
    (1 : Int) ≤ get_total_active_messages floatRoundFs
    ∧ ∃ langs, translationHandler floatRoundFs = Except.ok langs
      ∧ ∃ L ∈ langs, L.abbr ≠ "en"
        ∧ L.translation_percent = 57
        ∧ min 100 (((get_catalog_size L.translation : Int) * 100)
            / get_total_active_messages floatRoundFs) = 58 := by
  refine ⟨by decide, [⟨"fr", "French", cat29, 57, none⟩], ?_,
    ⟨"fr", "French", cat29, 57, none⟩, ?_, ?_, rfl, ?_⟩
  · rfl
  · exact List.mem_singleton.mpr rfl
  · decide
  · decide

/-- C3 (amended): for every non-base language of a successfully loaded
registry, when the reference message count `N` is at least 1 the stored
percentage is `min(100, int((t / N) * 100))` evaluated in binary64 float
arithmetic, where `t` counts the catalog entries whose key and value are
both non-empty. -/
theorem completeness_percent_binary64 (fs : LocalesDir) (langs : List Language)
    (L : Language) (hload : translationHandler fs = Except.ok langs)
    (hmem : L ∈ langs) (hbase : L.abbr ≠ "en")
    (_hN : 1 ≤ get_total_active_messages fs) :
    L.translation_percent
      = min 100 (int_float_percent (get_catalog_size L.translation)
          (get_total_active_messages fs)) := by
  obtain ⟨s, _, hp⟩ := get_translations_mem fs _ _ langs L hload hmem
  rcases process_language_percent fs _ s L hp with ⟨hen, _⟩ | ⟨_, _, hpc⟩
  · exact absurd hen hbase
  · exact hpc

/-- Witness for C3 (amended): in the sample registry (reference count 10)
the French record with 5 translated entries carries the clamped binary64
ratio, which evaluates to 50 exactly, and the German record with 11 entries
carries it too, which evaluates to 100 (the float value 110.00000000000001
is clamped), matching the claim's two worked examples. -/
theorem completeness_percent_binary64_witness :
    ((⟨"fr", "French", cat5, 50, some "Francais"⟩ : Language).translation_percent
        = min 100 (int_float_percent (get_catalog_size cat5)
            (get_total_active_messages sampleFs)))
    ∧ ((⟨"de", "German", cat11, 100, none⟩ : Language).translation_percent
        = min 100 (int_float_percent (get_catalog_size cat11)
            (get_total_active_messages sampleFs)))
    ∧ min (100 : Int) (int_float_percent (get_catalog_size cat5)
        (get_total_active_messages sampleFs)) = 50
    ∧ min (100 : Int) (int_float_percent (get_catalog_size cat11)
        (get_total_active_messages sampleFs)) = 100 :=
  ⟨completeness_percent_binary64 sampleFs sampleLangs
      ⟨"fr", "French", cat5, 50, some "Francais"⟩ rfl (by decide) (by decide) (by decide),
   completeness_percent_binary64 sampleFs sampleLangs
      ⟨"de", "German", cat11, 100, none⟩ rfl (by decide) (by decide) (by decide),
   by decide, by decide⟩

/-- C4 (corrected): the claim that every successfully loaded record has a
percentage in `[0, 100]` fails when the reference file contains no `msgid`
line: the count `len(msgid_lines) - 1` is then `-1`, loading still
succeeds, and a language with one translated entry is stored with
percentage `-100`. -/
theorem percent_bounds_counterexample :
    ∃ langs, translationHandler emptyPotFs = Except.ok langs
      ∧ ∃ L ∈ langs, ¬ (0 ≤ L.translation_percent ∧ L.translation_percent ≤ 100) := by
  refine ⟨[⟨"fr", "French", [("Hello", "Bonjour")], -100, none⟩], ?_,
    ⟨"fr", "French", [("Hello", "Bonjour")], -100, none⟩, ?_, ?_⟩
  · rfl
  · exact List.mem_singleton.mpr rfl
  · decide

/-- C4 (amended): every successfully loaded record has a percentage of at
most 100, and the percentage is also non-negative whenever the reference
message count is non-negative (i.e. the reference file has at least one
`msgid` line). -/
theorem percent_bounds (fs : LocalesDir) (langs : List Language) (L : Language)
    (hload : translationHandler fs = Except.ok langs) (hmem : L ∈ langs) :
    L.translation_percent ≤ 100
    ∧ (0 ≤ get_total_active_messages fs → 0 ≤ L.translation_percent) := by
  obtain ⟨s, _, hp⟩ := get_translations_mem fs _ _ langs L hload hmem
  rcases process_language_percent fs _ s L hp with ⟨_, h100⟩ | ⟨_, hN0, hpc⟩
  · simp [h100]
  · constructor
    · rw [hpc]; exact min_le_left _ _
    · intro hN
      rw [hpc]
      exact le_min (by norm_num)
        (int_float_percent_nonneg (get_catalog_size L.translation)
          (get_total_active_messages fs) hN)

/-- Witness for C4 (amended): applied to the German record of the sample
registry. -/
theorem percent_bounds_witness :
    (⟨"de", "German", cat11, 100, none⟩ : Language).translation_percent ≤ 100
    ∧ (0 ≤ get_total_active_messages sampleFs →
        0 ≤ (⟨"de", "German", cat11, 100, none⟩ : Language).translation_percent) :=
  percent_bounds sampleFs sampleLangs ⟨"de", "German", cat11, 100, none⟩ rfl (by decide)

/-- C5: in every successfully loaded registry, a record whose abbreviation
is the base code `en` has percentage exactly 100, whatever its catalog
holds. -/
theorem base_language_percent (fs : LocalesDir) (langs : List Language)
    (L : Language) (hload : translationHandler fs = Except.ok langs)
    (hmem : L ∈ langs) (hen : L.abbr = "en") : L.translation_percent = 100 := by
  obtain ⟨s, _, hp⟩ := get_translations_mem fs _ _ langs L hload hmem
  rcases process_language_percent fs _ s L hp with ⟨_, h100⟩ | ⟨hne, _, _⟩
  · exact h100
  · exact absurd hen hne

/-- Witness for C5: the English record of the sample registry (with an empty
catalog) has percentage 100. -/
theorem base_language_percent_witness :
    (⟨"en", "English", [], 100, none⟩ : Language).translation_percent = 100 :=
  base_language_percent sampleFs sampleLangs ⟨"en", "English", [], 100, none⟩
    rfl (by decide) rfl

/-! ## Registry lookup -/

/-- With pairwise distinct keys, `find?` on a member's key returns exactly
that member. -/
theorem find_by_key_of_mem {α β : Type} [BEq β] [LawfulBEq β] (f : α → β)
    (l : List α) (L : α) (hmem : L ∈ l)
    (hp : l.Pairwise (fun a b => f a ≠ f b)) :
    l.find? (fun x => f x == f L) = some L := by
  induction l with
  | nil => simp at hmem
  | cons a rest ih =>
    rcases List.mem_cons.mp hmem with rfl | hmem'
    · exact List.find?_cons_of_pos rest (by simp)
    · have hne : f a ≠ f L := (List.pairwise_cons.mp hp).1 L hmem'
      rw [List.find?_cons_of_neg rest (by simpa using hne)]
      exact ih hmem' (List.pairwise_cons.mp hp).2

/-- C6: on a registry with the spec's uniqueness invariant, looking up any
member's English name returns that member, and looking up a name carried by
no member fails with the `ValueError` message instead of returning a record;
the abbreviation lookup behaves the same way over abbreviations. -/
theorem lookup_by_name_and_abbr (langs : List Language) :
    (∀ L ∈ langs, langs.Pairwise (fun a b => a.name_en ≠ b.name_en) →
        get_language_by_name langs L.name_en = Except.ok L)
    ∧ (∀ name : String, (∀ L ∈ langs, L.name_en ≠ name) →
        get_language_by_name langs name
          = Except.error ("No language with name found: " ++ name))
    ∧ (∀ L ∈ langs, langs.Pairwise (fun a b => a.abbr ≠ b.abbr) →
        get_language_by_abbr langs L.abbr = Except.ok L)
    ∧ (∀ abbr : String, (∀ L ∈ langs, L.abbr ≠ abbr) →
        get_language_by_abbr langs abbr
          = Except.error ("No language with abbreviation \"" ++ abbr ++ "\" found")) := by
  refine ⟨fun L hmem hp => ?_, fun name hnone => ?_, fun L hmem hp => ?_,
    fun abbr hnone => ?_⟩
  · unfold get_language_by_name
    rw [find_by_key_of_mem (fun x => x.name_en) langs L hmem hp]
  · unfold get_language_by_name
    rw [List.find?_eq_none.mpr (fun x hx => by simpa using hnone x hx)]
  · unfold get_language_by_abbr
    rw [find_by_key_of_mem (fun x => x.abbr) langs L hmem hp]
  · unfold get_language_by_abbr
    rw [List.find?_eq_none.mpr (fun x hx => by simpa using hnone x hx)]

/-- Witness for C6: in the sample registry, looking up `French` by name
returns the French record and looking up the absent abbreviation `xx` fails
with the `ValueError` message. -/
theorem lookup_by_name_and_abbr_witness :
    get_language_by_name sampleLangs "French"
      = Except.ok ⟨"fr", "French", cat5, 50, some "Francais"⟩
    ∧ get_language_by_abbr sampleLangs "xx"
      = Except.error ("No language with abbreviation \"" ++ "xx" ++ "\" found") :=
  ⟨(lookup_by_name_and_abbr sampleLangs).1
      ⟨"fr", "French", cat5, 50, some "Francais"⟩ (by decide) (by decide),
   (lookup_by_name_and_abbr sampleLangs).2.2.2 "xx" (by decide)⟩

/-! ## Loader error behaviour -/

/-- C7: if a qualifying language directory has no mapping-file entry with
its name as abbreviation, loading raises a load error — no registry is
produced. -/
theorem missing_mapping_is_fatal (fs : LocalesDir) (s : String)
    (hqual : s ∈ provided_translations fs)
    (hmiss : ∀ m ∈ fs.languages_json, m.abbr ≠ s) :
    ∃ e, translationHandler fs = Except.error e := by
  cases h : translationHandler fs with
  | error e => exact ⟨e, rfl⟩
  | ok langs =>
    exfalso
    obtain ⟨L, hL⟩ := get_translations_ok_each fs _ _ langs h s hqual
    unfold process_language at hL
    rw [List.find?_eq_none.mpr (fun m hm => by simpa using hmiss m hm)] at hL
    cases hL

/-- Witness for C7: the directory `xx` of `unmappedDirFs` is qualifying and
unmapped, so its load fails. -/
theorem missing_mapping_is_fatal_witness :
    ∃ e, translationHandler unmappedDirFs = Except.error e :=
  missing_mapping_is_fatal unmappedDirFs "xx" (by decide) (by decide)

/-- The Boolean substring scan agrees with the list-infix relation. -/
theorem containsSub_eq_true_iff (needle hay : List Char) :
    containsSub needle hay = true ↔ needle <:+: hay := by
  induction hay with
  | nil =>
    simp [containsSub, List.isPrefixOf_iff_prefix, List.infix_nil, List.prefix_nil]
  | cons c rest ih =>
    simp [containsSub, List.isPrefixOf_iff_prefix, ih, List.infix_cons_iff]

/-- C8: the reference message count that the loader passes on as percentage
denominator equals the number of `base.pot` lines having `msgid` as a
substring, minus one for the metadata header, for every reference file
content. -/
theorem reference_count_spec (fs : LocalesDir) :
    translationHandler fs
      = get_translations fs (get_total_active_messages fs) (provided_translations fs)
    ∧ get_total_active_messages fs
      = ((fs.base_pot.filter
            (fun line => containsSub "msgid".toList line.toList)).length : Int) - 1
    ∧ ∀ line : String,
        containsSub "msgid".toList line.toList = true ↔ "msgid".toList <:+: line.toList :=
  ⟨rfl, rfl, fun line => containsSub_eq_true_iff "msgid".toList line.toList⟩

end Archinstall
